import Mathlib

/-!
Verification development for the consumer-group coordination core of a
Kafka-compatible broker, together with two peripheral request-handling
functions that ship in the same repository:

* the JoinGroup protocol handler (`kafka/server/handlers/join_group.cc`),
* the `WasmLang.Set` flag parser (`go/rpk/pkg/cli/transform/project/project.go`),
* the group state machine (Group, Member Session, Rebalance Coordinator):
  its implementation is not part of the visible sources, so it is modelled
  here from the specification's description of its data model, transitions,
  join barrier, sync validation and error taxonomy.
-/

namespace RedpandaGroups

/-- Kafka protocol error codes (the subset that the group-coordination layer
produces, per the spec's error taxonomy). -/
inductive error_code where
  | none_code
  | group_authorization_failed
  | illegal_generation
  | rebalance_in_progress
  | unknown_member_id
  | inconsistent_group_protocol
  | fenced_instance_id
deriving DecidableEq, Repr

/-- ACL operations, from `security::acl_operation` (subset). -/
inductive acl_operation where
  | read
  | write
  | create
  | remove
  | alter
  | describe
deriving DecidableEq, Repr

/-- The fields of a decoded JoinGroup request that the handler consults
before delegating to the group manager. -/
structure join_group_request where
  group_id : String
  member_id : String
deriving DecidableEq, Repr

/-- A JoinGroup response as the handler constructs it; the single-argument
constructor used on the authorization-failure path sets only the error. -/
structure join_group_response where
  error : error_code
deriving DecidableEq, Repr

/-- Shape of `process_result_stages`: either a single-stage (immediate)
response or a dispatched/result two-stage pair whose response comes from the
group manager. -/
inductive process_result_stages where
  | single_stage (resp : join_group_response)
  | two_stages (resp : join_group_response)
deriving DecidableEq, Repr

/-- Everything observable about one run of `join_group_handler::handle`:
the returned stages, the (possibly updated) group-manager state, and the
list of `(operation, resource)` pairs passed to `ctx.authorized`. -/
structure handle_outcome (σ : Type) where
  result : process_result_stages
  mgr : σ
  acl_checks : List (acl_operation × String)
deriving Repr

/-- Shallow embedding of `join_group_handler::handle` from
`kafka/server/handlers/join_group.cc`: after decoding, the handler calls
`ctx.authorized(security::acl_operation::read, request.data.group_id)`; on
denial it returns `process_result_stages::single_stage` carrying
`join_group_response(error_code::group_authorization_failed)` without
touching the group manager; otherwise it forwards the request to
`ctx.groups().join_group` and wraps the dispatched/result stages.  The
group manager is abstracted as a state-transformer argument `jg` over an
arbitrary state type `σ`. -/
def join_group_handle {σ : Type}
    (authorized : acl_operation → String → Bool)
    (jg : σ → join_group_request → σ × join_group_response)
    (mgr : σ) (req : join_group_request) : handle_outcome σ :=
  if authorized acl_operation.read req.group_id then
    let r := jg mgr req
    { result := process_result_stages.two_stages r.2
      mgr := r.1
      acl_checks := [(acl_operation.read, req.group_id)] }
  else
    { result := process_result_stages.single_stage
        { error := error_code.group_authorization_failed }
      mgr := mgr
      acl_checks := [(acl_operation.read, req.group_id)] }

end RedpandaGroups

namespace RpkTransform

/-- The registered transform languages, from `project.go`. -/
def AllWasmLangs : List String := ["tinygo"]

/-- Model of Go `strings.ToLower` as used by `WasmLang.Set` (character-wise
lowercasing; on the ASCII alphabet of the registered language names the two
agree). -/
def go_to_lower (s : String) : String := String.mk (s.data.map Char.toLower)

/-- Shallow embedding of `WasmLang.Set` from `project.go`: lowercase the
input, scan `AllWasmLangs` for an exact match; on a hit assign the matched
canonical name to the receiver and return no error, otherwise return an
`unknown language` error and leave the receiver untouched.  The pair is
(receiver value after the call, optional error message). -/
def wasm_lang_set (l : String) (str : String) : String × Option String :=
  match AllWasmLangs.find? (fun s => go_to_lower str == s) with
  | some s => (s, none)
  | none => (l, some ("unknown language: " ++ str))

end RpkTransform

namespace RedpandaGroups

/-- Modelled from the spec: the Group state machine's states
{Empty, PreparingRebalance, CompletingRebalance, Stable, Dead} (§3). -/
inductive group_state where
  | Empty
  | PreparingRebalance
  | CompletingRebalance
  | Stable
  | Dead
deriving DecidableEq, Repr

/-- Modelled from the spec: a Member Session (§3).  `joined` records that the
member has submitted a Join for the in-progress barrier and holds a parked
Join response awaiting barrier close; `join_order` is the arrival rank of
that Join within the barrier (used for leader selection); `assignment`
holds the opaque bytes stored for the current generation, `none` until
CompletingRebalance finishes; `pending_sync` records a parked (suspended)
non-leader Sync awaiting the leader's assignment. -/
structure member_session where
  member_id : String
  joined : Bool
  join_order : Nat
  assignment : Option (List Nat)
  last_heartbeat_at : Nat
  pending_sync : Bool
deriving DecidableEq, Repr

/-- Modelled from the spec: the per-group state owned by the Group Table
(§3): state, monotone generation counter, current leader, the members map
(as an association list keyed by `member_id`), the join-order allocator for
the in-progress barrier, and the rebalance-timeout deadline of the
in-progress barrier (§4.2). -/
structure group where
  id : String
  state : group_state
  generation : Nat
  leader_id : Option String
  members : List member_session
  next_join_order : Nat
  rebalance_deadline : Nat
  rebalance_timeout : Nat
deriving DecidableEq, Repr

def member_ids (g : group) : List String :=
  g.members.map (fun m => m.member_id)

def find_member (ms : List member_session) (mid : String) : Option member_session :=
  ms.find? (fun m => m.member_id == mid)

def update_member (ms : List member_session) (mid : String)
    (f : member_session → member_session) : List member_session :=
  ms.map (fun m => if m.member_id == mid then f m else m)

/-- Every currently known member (previous stable set plus new joiners) has
submitted a Join for this barrier (§4.2 condition (a)). -/
def all_joined (g : group) : Bool :=
  g.members.all (fun m => m.joined)

/-- Modelled from the spec: entering PreparingRebalance (§4.1/§4.2).  Every
member must re-join (joined flags cleared), parked non-leader Syncs are
cancelled (the member is told to rejoin), the join-order allocator restarts,
and a fresh barrier deadline of one `rebalance_timeout` from now is set. -/
def prepare_rebalance (g : group) (now : Nat) : group :=
  { g with
    state := group_state.PreparingRebalance
    members := g.members.map (fun m => { m with joined := false, pending_sync := false })
    next_join_order := 0
    rebalance_deadline := now + g.rebalance_timeout }

/-- A resolved (previously parked) Join response (§4.2): generation, leader
and error delivered to one member when the barrier closes. -/
structure join_resp where
  member_id : String
  error : error_code
  generation : Nat
  leader_id : Option String
deriving DecidableEq, Repr

/-- Of two member sessions, the one that joined the barrier earlier
(smaller `join_order`; ties keep the left argument). -/
def earlier (a b : member_session) : member_session :=
  if b.join_order < a.join_order then b else a

/-- The earliest joiner still present among `ms` (`none` when empty). -/
def earliest_joiner (ms : List member_session) : Option member_session :=
  match ms with
  | [] => none
  | m :: rest => some (rest.foldl earlier m)

/-- Modelled from the spec: closing the join barrier (§4.2).  Members that
did not join are dropped; `generation += 1`; with zero remaining members the
group becomes Empty, otherwise it enters CompletingRebalance with
`leader_id` fixed to the earliest joiner still present; assignments of the
new generation start empty; every parked Join response is resolved with the
new generation and leader. -/
def close_barrier (g : group) : group × List join_resp :=
  let remaining := g.members.filter (fun m => m.joined)
  let gen := g.generation + 1
  match earliest_joiner remaining with
  | none =>
      ({ g with state := group_state.Empty, generation := gen,
                leader_id := none, members := [] }, [])
  | some lead =>
      ({ g with state := group_state.CompletingRebalance, generation := gen,
                leader_id := some lead.member_id,
                members := remaining.map (fun m =>
                  { m with joined := false, assignment := none, pending_sync := false }) },
       remaining.map (fun m =>
         { member_id := m.member_id, error := error_code.none_code,
           generation := gen, leader_id := some lead.member_id }))

/-- The barrier may close: condition (a) all currently known members have
joined, or (b) the rebalance-timeout deadline has elapsed (§4.2). -/
def barrier_ready (g : group) (now : Nat) : Bool :=
  all_joined g || decide (g.rebalance_deadline ≤ now)

/-- Modelled from the spec: the Rebalance Coordinator closes the join
barrier exactly when the group is PreparingRebalance and `barrier_ready`
holds; otherwise nothing happens (§4.2). -/
def try_complete_join (g : group) (now : Nat) : group × List join_resp :=
  if g.state = group_state.PreparingRebalance ∧ barrier_ready g now = true then
    close_barrier g
  else (g, [])

/-- Modelled from the spec: admitting one Join into the in-progress barrier
(§4.1): an unknown id creates a fresh Member Session marked joined with the
next join order; a known member re-joining is marked joined and given the
next join order (keeping its order if it had already joined); a successful
join refreshes `last_heartbeat_at`. -/
def admit_join (g : group) (mid : String) (now : Nat) : group :=
  match find_member g.members mid with
  | some m =>
      if m.joined then
        { g with members :=
            update_member g.members mid (fun m0 => { m0 with last_heartbeat_at := now }) }
      else
        { g with
          members := update_member g.members mid
            (fun m0 => { m0 with joined := true, join_order := g.next_join_order,
                                 last_heartbeat_at := now })
          next_join_order := g.next_join_order + 1 }
  | none =>
      { g with
        members := g.members ++
          [{ member_id := mid, joined := true, join_order := g.next_join_order,
             assignment := none, last_heartbeat_at := now, pending_sync := false }]
        next_join_order := g.next_join_order + 1 }

/-- Modelled from the spec: Join handling (§4.1).  A first Join moves an
Empty group to PreparingRebalance; a Join while Stable or
CompletingRebalance restarts the barrier; during PreparingRebalance the
member is admitted; after admission the barrier closes if every known
member has now joined. -/
def handle_join (g : group) (mid : String) (now : Nat) : group × List join_resp :=
  match g.state with
  | group_state.Dead =>
      (g, [{ member_id := mid, error := error_code.unknown_member_id,
             generation := g.generation, leader_id := none }])
  | group_state.PreparingRebalance =>
      try_complete_join (admit_join g mid now) now
  | _ =>
      try_complete_join (admit_join (prepare_rebalance g now) mid now) now

/-- Outcome of a Sync request: an error, a parked (suspended) non-leader
Sync, or the leader's accepted assignment together with the list of parked
Syncs released, each with its own member's bytes. -/
inductive sync_out where
  | err (e : error_code)
  | parked
  | assigned (bytes : List Nat) (released : List (String × Option (List Nat)))
deriving DecidableEq, Repr

/-- The bytes the leader's assignment map carries for member `mid`. -/
def assignment_for (mid : String) (assignments : List (String × List Nat)) :
    Option (List Nat) :=
  match assignments.find? (fun p => p.1 == mid) with
  | some p => some p.2
  | none => none

/-- Modelled from the spec: the key-set completeness validation of the
leader's assignment map (§4.1/§4.3): every current member id occurs among
the map's keys (no missing ids) and every key is a current member id (no
extra ids). -/
def keys_match (g : group) (assignments : List (String × List Nat)) : Bool :=
  g.members.all (fun m => (assignment_for m.member_id assignments).isSome)
    && assignments.all (fun p => (member_ids g).contains p.1)

/-- Modelled from the spec: Sync handling (§4.1).  A generation mismatch
fails with `illegal_generation` (stale client); a Sync outside
CompletingRebalance is told a rebalance is in progress; an unknown member
fails; the leader's Sync is validated for key-set completeness — on success
each member's bytes are stored opaquely, the group becomes Stable and every
parked Sync is released with its own bytes; on failure a new rebalance is
forced.  A non-leader Sync parks until the leader's assignment arrives. -/
def handle_sync (g : group) (mid : String) (gen : Nat)
    (assignments : List (String × List Nat)) (now : Nat) : group × sync_out :=
  if gen ≠ g.generation then
    (g, sync_out.err error_code.illegal_generation)
  else if g.state ≠ group_state.CompletingRebalance then
    (g, sync_out.err error_code.rebalance_in_progress)
  else if (member_ids g).contains mid = false then
    (g, sync_out.err error_code.unknown_member_id)
  else if g.leader_id = some mid then
    if keys_match g assignments then
      ({ g with state := group_state.Stable,
                members := g.members.map (fun m =>
                  { m with assignment := assignment_for m.member_id assignments,
                           pending_sync := false,
                           last_heartbeat_at :=
                             if m.member_id == mid then now else m.last_heartbeat_at }) },
       sync_out.assigned ((assignment_for mid assignments).getD [])
         ((g.members.filter (fun m => m.pending_sync)).map
            (fun m => (m.member_id, assignment_for m.member_id assignments))))
    else
      (prepare_rebalance g now, sync_out.err error_code.rebalance_in_progress)
  else
    ({ g with
         members :=
           update_member g.members mid
             (fun m0 => { m0 with pending_sync := true, last_heartbeat_at := now }) },
     sync_out.parked)

/-- Modelled from the spec: Heartbeat handling (§4.1/§8).  While the state
is not Stable the client is always told a rebalance is in progress (this is
how live clients learn of rebalances); when Stable, a generation mismatch
fails with `illegal_generation`, an unknown member fails, and otherwise the
heartbeat succeeds and refreshes `last_heartbeat_at`. -/
def handle_heartbeat (g : group) (mid : String) (gen : Nat) (now : Nat) :
    group × error_code :=
  if g.state ≠ group_state.Stable then
    (g, error_code.rebalance_in_progress)
  else if gen ≠ g.generation then
    (g, error_code.illegal_generation)
  else
    match find_member g.members mid with
    | none => (g, error_code.unknown_member_id)
    | some _ =>
        ({ g with members :=
             update_member g.members mid (fun m0 => { m0 with last_heartbeat_at := now }) },
         error_code.none_code)

/-- Start a new rebalance unless one is already in progress. -/
def rebalance_if_needed (g : group) (now : Nat) : group :=
  if g.state = group_state.PreparingRebalance then g else prepare_rebalance g now

/-- Modelled from the spec: Leave handling (§4.1).  The member is removed;
if the group was not already rebalancing a new rebalance starts, and the
barrier then closes immediately when the removal satisfies its condition
(in particular, removal of the last member closes the barrier with zero
remaining members, reaching Empty). -/
def handle_leave (g : group) (mid : String) (now : Nat) : group × error_code :=
  match g.state with
  | group_state.Dead => (g, error_code.unknown_member_id)
  | group_state.Empty => (g, error_code.unknown_member_id)
  | _ =>
      match find_member g.members mid with
      | none => (g, error_code.unknown_member_id)
      | some _ =>
          ((try_complete_join
              (rebalance_if_needed
                { g with members := g.members.filter (fun m => m.member_id != mid) } now)
              now).1,
           error_code.none_code)

/-- One observable input to the group state machine. -/
inductive event where
  | join (mid : String) (now : Nat)
  | timer (now : Nat)
  | sync (mid : String) (gen : Nat) (assignments : List (String × List Nat)) (now : Nat)
  | heartbeat (mid : String) (gen : Nat) (now : Nat)
  | leave (mid : String) (now : Nat)
deriving Repr

/-- The group state machine: one observable transition. -/
def step (g : group) (e : event) : group :=
  match e with
  | event.join mid now => (handle_join g mid now).1
  | event.timer now => (try_complete_join g now).1
  | event.sync mid gen assignments now => (handle_sync g mid gen assignments now).1
  | event.heartbeat mid gen now => (handle_heartbeat g mid gen now).1
  | event.leave mid now => (handle_leave g mid now).1

/-- A freshly created group: Empty, generation 0, no leader, no members. -/
def init_group (gid : String) (tmo : Nat) : group :=
  { id := gid, state := group_state.Empty, generation := 0, leader_id := none,
    members := [], next_join_order := 0, rebalance_deadline := 0,
    rebalance_timeout := tmo }

def run (g : group) (es : List event) : group :=
  es.foldl step g

/-- A group state observable during some lifetime of some group. -/
def reachable (g : group) : Prop :=
  ∃ gid tmo es, g = run (init_group gid tmo) es

/-- There is exactly one leader, it is a member present in the current
member set, and it is an earliest joiner of the generation (minimal
`join_order`). -/
def leader_ok (g : group) : Prop :=
  ∃ lm, lm ∈ g.members ∧ g.leader_id = some lm.member_id ∧
    ∀ m ∈ g.members, lm.join_order ≤ m.join_order

/-- The spec's Group invariants (§3): once a generation has reached
CompletingRebalance or later the leader exists, is present and is the
earliest joiner; and a Stable group's members all hold an assignment for
the current generation. -/
def group_inv (g : group) : Prop :=
  ((g.state = group_state.CompletingRebalance ∨ g.state = group_state.Stable) →
     leader_ok g) ∧
  (g.state = group_state.Stable →
     ∀ m ∈ g.members, m.assignment.isSome = true)

/-- A concrete lifetime: `a` joins an Empty group (the barrier closes at
once, generation 1), then `b` joins, restarting the barrier; `a` has not
re-joined yet, so the group sits in PreparingRebalance (deadline 15). -/
def g_preparing : group :=
  run (init_group "g" 10) [event.join "a" 0, event.join "b" 5]

/-- A concrete lifetime reaching CompletingRebalance at generation 1 with
single member and leader `a`. -/
def g_completing : group :=
  run (init_group "g" 10) [event.join "a" 0]

/-- A concrete lifetime reaching Stable: `a` joins and then, as leader,
syncs an assignment for generation 1. -/
def g_stable : group :=
  run (init_group "g" 10) [event.join "a" 0, event.sync "a" 1 [("a", [1, 2])] 3]

/-- Looking a member up after mapping an id-preserving function over the
member list finds the image of the member found before. -/
theorem find_member_map (ms : List member_session) (mid : String)
    (f : member_session → member_session)
    (hf : ∀ m, (f m).member_id = m.member_id) :
    find_member (ms.map f) mid = (find_member ms mid).map f := by
  induction ms with
  | nil => rfl
  | cons m rest ih =>
      unfold find_member at *
      by_cases h : (m.member_id == mid) = true
      · simp [List.find?, hf, h]
      · have hb : (m.member_id == mid) = false := by simpa using h
        simp only [List.map_cons, List.find?, hf, hb]
        exact ih

/-- `update_member` only rewrites entries with the given id; looking that id
up afterwards finds the updated session. -/
theorem find_member_update (ms : List member_session) (mid : String)
    (f : member_session → member_session)
    (hf : ∀ m, (f m).member_id = m.member_id) :
    find_member (update_member ms mid f) mid = (find_member ms mid).map f := by
  induction ms with
  | nil => rfl
  | cons m rest ih =>
      unfold find_member update_member at *
      by_cases h : (m.member_id == mid) = true
      · simp [List.find?, hf, h]
      · have hb : (m.member_id == mid) = false := by simpa using h
        simpa [List.find?, hb] using ih

/-- Claim C1: a JoinGroup request that fails the authorization check is
answered with a single-stage response carrying
`GROUP_AUTHORIZATION_FAILED`, the group manager's `join_group` is never
invoked (the outcome is the same whatever transition function the manager
implements), and the manager state is unchanged. -/
theorem join_group_unauthorized_rejected {σ : Type}
    (authorized : acl_operation → String → Bool)
    (jg : σ → join_group_request → σ × join_group_response)
    (mgr : σ) (req : join_group_request)
    (h : authorized acl_operation.read req.group_id = false) :
    (join_group_handle authorized jg mgr req).result
        = process_result_stages.single_stage
            { error := error_code.group_authorization_failed } ∧
    (join_group_handle authorized jg mgr req).mgr = mgr ∧
    ∀ jg2 : σ → join_group_request → σ × join_group_response,
      join_group_handle authorized jg mgr req = join_group_handle authorized jg2 mgr req := by
  refine ⟨?_, ?_, ?_⟩ <;> simp [join_group_handle, h]

theorem join_group_unauthorized_rejected_witness :
    (join_group_handle (fun _ _ => false)
        (fun (n : Nat) _ => (n + 1, { error := error_code.none_code })) 0
        { group_id := "g1", member_id := "" }).result
      = process_result_stages.single_stage
          { error := error_code.group_authorization_failed } ∧
    (join_group_handle (fun _ _ => false)
        (fun (n : Nat) _ => (n + 1, { error := error_code.none_code })) 0
        { group_id := "g1", member_id := "" }).mgr = 0 :=
  by
    have h := join_group_unauthorized_rejected (fun _ _ => false)
      (fun (n : Nat) _ => (n + 1, { error := error_code.none_code })) 0
      { group_id := "g1", member_id := "" } rfl
    exact ⟨h.1, h.2.1⟩

/-- Claim C9: the only authorization consultation the JoinGroup handler
performs is for the read ACL operation on the request's group id — for
every request, every authorizer verdict and every group-manager behaviour,
the list of consulted `(operation, resource)` pairs is exactly
`[(read, group_id)]`, so no other operation kind is consulted. -/
theorem join_group_acl_consults_read_only {σ : Type}
    (authorized : acl_operation → String → Bool)
    (jg : σ → join_group_request → σ × join_group_response)
    (mgr : σ) (req : join_group_request) :
    (join_group_handle authorized jg mgr req).acl_checks
      = [(acl_operation.read, req.group_id)] := by
  unfold join_group_handle
  by_cases h : authorized acl_operation.read req.group_id = true <;> simp [h]

/-- Claim C5 counterexample: a Heartbeat carrying a stale generation while
the group is PreparingRebalance is rejected with `REBALANCE_IN_PROGRESS`,
not `ILLEGAL_GENERATION`: in the concrete lifetime `g_preparing` the
current generation is 1, yet a heartbeat carrying generation 0 gets
`rebalance_in_progress`. -/
theorem stale_heartbeat_not_illegal_generation :
    g_preparing.generation = 1 ∧
    g_preparing.state = group_state.PreparingRebalance ∧
    handle_heartbeat g_preparing "a" 0 6
      = (g_preparing, error_code.rebalance_in_progress) ∧
    error_code.rebalance_in_progress ≠ error_code.illegal_generation := by
  refine ⟨by decide, by decide, by decide, by decide⟩

/-- Claim C5 (amended): a SyncGroup request carrying a generation different
from the group's current generation always fails with `ILLEGAL_GENERATION`
and changes no state; a Heartbeat carrying a stale generation is likewise
never silently accepted and changes no state, but its error code is
`ILLEGAL_GENERATION` only when the group is Stable — while the group is not
Stable it is rejected with `REBALANCE_IN_PROGRESS`. -/
theorem stale_generation_rejected (g : group) (mid : String) (gen : Nat)
    (assignments : List (String × List Nat)) (now : Nat)
    (h : gen ≠ g.generation) :
    handle_sync g mid gen assignments now
      = (g, sync_out.err error_code.illegal_generation) ∧
    (handle_heartbeat g mid gen now).1 = g ∧
    (handle_heartbeat g mid gen now).2
      = (if g.state = group_state.Stable then error_code.illegal_generation
         else error_code.rebalance_in_progress) := by
  refine ⟨by simp [handle_sync, h], ?_, ?_⟩
  · unfold handle_heartbeat
    by_cases hs : g.state = group_state.Stable <;> simp [hs, h]
  · unfold handle_heartbeat
    by_cases hs : g.state = group_state.Stable <;> simp [hs, h]

theorem stale_generation_rejected_witness :
    handle_sync g_preparing "a" 0 [] 6
      = (g_preparing, sync_out.err error_code.illegal_generation) ∧
    (handle_heartbeat g_preparing "a" 0 6).1 = g_preparing := by
  have h := stale_generation_rejected g_preparing "a" 0 [] 6 (by decide)
  exact ⟨h.1, h.2.1⟩

/-- Claim C6: a Heartbeat received while the group's state is not Stable is
always answered with `REBALANCE_IN_PROGRESS` (and changes nothing); when
the group is Stable, the carried generation matches and the member is
present, the heartbeat succeeds and refreshes that member's
`last_heartbeat_at`. -/
theorem heartbeat_rebalance_signal_and_refresh
    (g : group) (mid : String) (gen : Nat) (now : Nat) :
    (g.state ≠ group_state.Stable →
       handle_heartbeat g mid gen now = (g, error_code.rebalance_in_progress)) ∧
    (g.state = group_state.Stable → gen = g.generation →
       ∀ m, find_member g.members mid = some m →
         (handle_heartbeat g mid gen now).2 = error_code.none_code ∧
         find_member (handle_heartbeat g mid gen now).1.members mid
           = some { m with last_heartbeat_at := now }) := by
  constructor
  · intro hs
    simp [handle_heartbeat, hs]
  · intro hs hgen m hm
    have hgen2 : ¬ gen ≠ g.generation := by simp [hgen]
    constructor
    · simp [handle_heartbeat, hs, hgen2, hm]
    · have hs2 : ¬ (g.state ≠ group_state.Stable) := by simp [hs]
      simp only [handle_heartbeat, if_neg hs2, if_neg hgen2, hm]
      rw [find_member_update g.members mid
            (fun m0 => { m0 with last_heartbeat_at := now }) (fun m0 => rfl), hm]
      rfl

theorem heartbeat_rebalance_signal_and_refresh_witness :
    handle_heartbeat g_preparing "x" 1 6
      = (g_preparing, error_code.rebalance_in_progress) ∧
    (handle_heartbeat g_stable "a" 1 7).2 = error_code.none_code ∧
    find_member (handle_heartbeat g_stable "a" 1 7).1.members "a"
      = some { member_id := "a", joined := false, join_order := 0,
               assignment := some [1, 2], last_heartbeat_at := 7,
               pending_sync := false } := by
  have h1 := (heartbeat_rebalance_signal_and_refresh g_preparing "x" 1 6).1 (by decide)
  have h2 := (heartbeat_rebalance_signal_and_refresh g_stable "a" 1 7).2 (by decide)
    (by decide)
    { member_id := "a", joined := false, join_order := 0,
      assignment := some [1, 2], last_heartbeat_at := 3, pending_sync := false }
    (by decide)
  exact ⟨h1, h2.1, h2.2⟩

/-- The leader's map carries bytes for `mid` exactly when `mid` is among its
keys. -/
theorem assignment_for_isSome (mid : String)
    (assignments : List (String × List Nat)) :
    (assignment_for mid assignments).isSome = true ↔
      mid ∈ assignments.map Prod.fst := by
  induction assignments with
  | nil => simp [assignment_for]
  | cons p rest ih =>
      unfold assignment_for at *
      by_cases h : (p.1 == mid) = true
      · have he : p.1 = mid := by simpa using h
        simp [List.find?, h, he.symm]
      · have hb : (p.1 == mid) = false := by simpa using h
        have hne : ¬ mid = p.1 := fun he => h (by simp [he])
        simpa [List.find?, hb, hne] using ih

/-- An id occurring in `member_ids` can be found, and the found session
carries that id. -/
theorem find_member_of_mem_ids (ms : List member_session) (i : String)
    (h : i ∈ ms.map (fun m => m.member_id)) :
    ∃ m, find_member ms i = some m ∧ m.member_id = i := by
  induction ms with
  | nil => simp at h
  | cons m rest ih =>
      by_cases he : (m.member_id == i) = true
      · exact ⟨m, by simp [find_member, List.find?, he], by simpa using he⟩
      · have hb : (m.member_id == i) = false := by simpa using he
        have h2 : i ∈ rest.map (fun m => m.member_id) := by
          rw [List.map_cons, List.mem_cons] at h
          rcases h with h3 | h3
          · exact absurd (by simp [h3]) he
          · exact h3
        rcases ih h2 with ⟨m2, hm2, hid⟩
        refine ⟨m2, ?_, hid⟩
        unfold find_member at hm2 ⊢
        simpa [List.find?, hb] using hm2

/-- The boolean key-set validation of the leader's Sync holds exactly when
the map's key set equals the current member-id set: no member id is
missing among the keys and no key falls outside the member-id set. -/
theorem keys_match_iff (g : group) (assignments : List (String × List Nat)) :
    keys_match g assignments = true ↔
      ((∀ i ∈ member_ids g, i ∈ assignments.map Prod.fst) ∧
       (∀ k ∈ assignments.map Prod.fst, k ∈ member_ids g)) := by
  unfold keys_match
  rw [Bool.and_eq_true, List.all_eq_true, List.all_eq_true]
  constructor
  · rintro ⟨h1, h2⟩
    constructor
    · intro i hi
      rcases List.mem_map.1 hi with ⟨m, hm, hid⟩
      have := h1 m hm
      rw [hid] at this
      exact (assignment_for_isSome i assignments).1 this
    · intro k hk
      rcases List.mem_map.1 hk with ⟨p, hp, hid⟩
      have := h2 p hp
      rw [hid] at this
      exact List.elem_iff.1 this
  · rintro ⟨h1, h2⟩
    constructor
    · intro m hm
      exact (assignment_for_isSome m.member_id assignments).2
        (h1 m.member_id (List.mem_map.2 ⟨m, hm, rfl⟩))
    · intro p hp
      exact List.elem_iff.2 (h2 p.1 (List.mem_map.2 ⟨p, hp, rfl⟩))

/-- Claim C7: during CompletingRebalance the leader's SyncGroup (carrying
the current generation) is accepted — the group reaches Stable — exactly
when the assignment map's key set equals the current member set (no member
id missing among the keys, no extra key); on success each member's
assignment bytes are stored opaquely, i.e. the stored bytes are whatever
bytes the map carries for that member id, and every member with a parked
Sync is released with its own bytes; on validation failure a new rebalance
is forced. -/
theorem leader_sync_validation (g : group) (mid : String)
    (assignments : List (String × List Nat)) (now : Nat)
    (hc : g.state = group_state.CompletingRebalance)
    (hl : g.leader_id = some mid)
    (hm : (member_ids g).contains mid = true) :
    ((handle_sync g mid g.generation assignments now).1.state = group_state.Stable ↔
       ((∀ i ∈ member_ids g, i ∈ assignments.map Prod.fst) ∧
        (∀ k ∈ assignments.map Prod.fst, k ∈ member_ids g))) ∧
    (keys_match g assignments = true →
       (∀ i ∈ member_ids g,
          ∃ m2, find_member (handle_sync g mid g.generation assignments now).1.members i
                  = some m2 ∧
                m2.assignment = assignment_for i assignments ∧
                (assignment_for i assignments).isSome = true) ∧
       (∃ rel,
          (handle_sync g mid g.generation assignments now).2
            = sync_out.assigned ((assignment_for mid assignments).getD []) rel ∧
          ∀ m ∈ g.members, m.pending_sync = true →
            (m.member_id, assignment_for m.member_id assignments) ∈ rel)) ∧
    (keys_match g assignments = false →
       (handle_sync g mid g.generation assignments now).1.state
           = group_state.PreparingRebalance ∧
       (handle_sync g mid g.generation assignments now).2
           = sync_out.err error_code.rebalance_in_progress) := by
  have hm2 : mid ∈ member_ids g := List.elem_iff.1 hm
  by_cases hk : keys_match g assignments = true
  · have heq : handle_sync g mid g.generation assignments now
        = ({ g with state := group_state.Stable,
                    members := g.members.map (fun m =>
                      { m with assignment := assignment_for m.member_id assignments,
                               pending_sync := false,
                               last_heartbeat_at :=
                                 if m.member_id == mid then now
                                 else m.last_heartbeat_at }) },
           sync_out.assigned ((assignment_for mid assignments).getD [])
             ((g.members.filter (fun m => m.pending_sync)).map
                (fun m => (m.member_id, assignment_for m.member_id assignments)))) := by
      simp [handle_sync, hc, hm, hm2, hl, hk]
    refine ⟨?_, ?_, ?_⟩
    · rw [heq]
      exact iff_of_true rfl ((keys_match_iff g assignments).1 hk)
    · intro _
      constructor
      · intro i hi
        rcases find_member_of_mem_ids g.members i hi with ⟨m0, hfind, hid⟩
        let m2 : member_session :=
          { m0 with assignment := assignment_for m0.member_id assignments,
                    pending_sync := false,
                    last_heartbeat_at :=
                      if m0.member_id == mid then now
                      else m0.last_heartbeat_at }
        refine ⟨m2, ?_, ?_, ?_⟩
        · rw [heq]
          show find_member (g.members.map (fun m =>
                { m with assignment := assignment_for m.member_id assignments,
                         pending_sync := false,
                         last_heartbeat_at :=
                           if m.member_id == mid then now
                           else m.last_heartbeat_at })) i
              = _
          rw [find_member_map g.members i
                (fun m =>
                  { m with assignment := assignment_for m.member_id assignments,
                           pending_sync := false,
                           last_heartbeat_at :=
                             if m.member_id == mid then now
                             else m.last_heartbeat_at })
                (fun m => rfl),
              hfind]
          rfl
        · show assignment_for m0.member_id assignments = assignment_for i assignments
          rw [hid]
        · exact (assignment_for_isSome i assignments).2
            (((keys_match_iff g assignments).1 hk).1 i hi)
      · refine ⟨(g.members.filter (fun m => m.pending_sync)).map
            (fun m => (m.member_id, assignment_for m.member_id assignments)), ?_, ?_⟩
        · rw [heq]
        · intro m hmem hp
          exact List.mem_map.2 ⟨m, List.mem_filter.2 ⟨hmem, hp⟩, rfl⟩
    · intro hkf
      rw [hk] at hkf
      exact absurd hkf (by decide)
  · have hkf : keys_match g assignments = false := by simpa using hk
    have heq : handle_sync g mid g.generation assignments now
        = (prepare_rebalance g now, sync_out.err error_code.rebalance_in_progress) := by
      simp [handle_sync, hc, hm, hm2, hl, hkf]
    refine ⟨?_, ?_, ?_⟩
    · rw [heq]
      refine iff_of_false ?_ ?_
      · show ¬ (prepare_rebalance g now).state = group_state.Stable
        simp [prepare_rebalance]
      · intro hp
        exact hk ((keys_match_iff g assignments).2 hp)
    · intro h
      exact absurd h hk
    · intro _
      rw [heq]
      exact ⟨rfl, rfl⟩

theorem leader_sync_validation_witness :
    (handle_sync g_completing "a" g_completing.generation [("a", [7])] 9).1.state
        = group_state.Stable ∧
    (handle_sync g_completing "a" g_completing.generation [("x", [7])] 9).1.state
        = group_state.PreparingRebalance := by
  have h := leader_sync_validation g_completing "a" [("a", [7])] 9
    (by decide) (by decide) (by decide)
  have h2 := leader_sync_validation g_completing "a" [("x", [7])] 9
    (by decide) (by decide) (by decide)
  exact ⟨h.1.mpr ⟨by decide, by decide⟩, (h2.2.2 (by decide)).1⟩

/-- The earliest joiner is absent exactly on an empty member list. -/
theorem earliest_joiner_eq_none (ms : List member_session) :
    earliest_joiner ms = none ↔ ms = [] := by
  cases ms <;> simp [earliest_joiner]

/-- Claim C8: while a rebalance is in progress the join barrier closes
exactly when (a) every currently known member (previous stable set plus
new joiners, i.e. every entry of `members`) has submitted a Join for this
generation or (b) the rebalance-timeout deadline has elapsed — and on
close the generation is incremented by exactly one, the surviving member
ids are exactly those of the members that joined (prior members that did
not join are dropped), and every parked Join response (one per joined
member) is resolved with the new generation and the new leader. -/
theorem join_barrier_close (g : group) (now : Nat)
    (hp : g.state = group_state.PreparingRebalance) :
    (((try_complete_join g now).1.state ≠ group_state.PreparingRebalance) ↔
       (all_joined g = true ∨ g.rebalance_deadline ≤ now)) ∧
    ((all_joined g = true ∨ g.rebalance_deadline ≤ now) →
       (try_complete_join g now).1.generation = g.generation + 1 ∧
       member_ids (try_complete_join g now).1
         = (g.members.filter (fun m => m.joined)).map (fun m => m.member_id) ∧
       (try_complete_join g now).2.length
         = (g.members.filter (fun m => m.joined)).length ∧
       (∀ m ∈ g.members, m.joined = true →
          ∃ r ∈ (try_complete_join g now).2,
            r.member_id = m.member_id ∧ r.generation = g.generation + 1 ∧
            r.leader_id = (try_complete_join g now).1.leader_id)) := by
  by_cases hr : all_joined g = true ∨ g.rebalance_deadline ≤ now
  · have hb : barrier_ready g now = true := by
      unfold barrier_ready
      rcases hr with h | h
      · simp [h]
      · simp [h]
    have htc : try_complete_join g now = close_barrier g := by
      unfold try_complete_join
      rw [if_pos ⟨hp, hb⟩]
    cases he : earliest_joiner (g.members.filter (fun m => m.joined)) with
    | none =>
        have hemp : g.members.filter (fun m => m.joined) = [] :=
          (earliest_joiner_eq_none _).1 he
        refine ⟨iff_of_true ?_ hr, fun _ => ⟨?_, ?_, ?_, ?_⟩⟩
        · rw [htc]
          simp only [close_barrier, he]
          decide
        · rw [htc]
          simp only [close_barrier, he]
        · rw [htc]
          simp only [close_barrier, he, hemp]
          rfl
        · rw [htc]
          simp only [close_barrier, he, hemp]
          rfl
        · intro m hm hj
          have : m ∈ g.members.filter (fun m => m.joined) :=
            List.mem_filter.2 ⟨hm, hj⟩
          rw [hemp] at this
          simp at this
    | some lead =>
        refine ⟨iff_of_true ?_ hr, fun _ => ⟨?_, ?_, ?_, ?_⟩⟩
        · rw [htc]
          simp only [close_barrier, he]
          decide
        · rw [htc]
          simp only [close_barrier, he]
        · rw [htc]
          simp only [close_barrier, he]
          simp only [member_ids, List.map_map]
          rfl
        · rw [htc]
          simp only [close_barrier, he]
          exact List.length_map _ _
        · intro m hm hj
          have hmem : m ∈ g.members.filter (fun m => m.joined) :=
            List.mem_filter.2 ⟨hm, hj⟩
          rw [htc]
          simp only [close_barrier, he]
          refine ⟨{ member_id := m.member_id, error := error_code.none_code,
                    generation := g.generation + 1,
                    leader_id := some lead.member_id },
                  List.mem_map.2 ⟨m, hmem, rfl⟩, rfl, rfl, rfl⟩
  · have hnb : ¬ (g.state = group_state.PreparingRebalance ∧ barrier_ready g now = true) := by
      rintro ⟨_, hb⟩
      apply hr
      unfold barrier_ready at hb
      rcases Bool.or_eq_true_iff.1 hb with h | h
      · exact Or.inl h
      · exact Or.inr (of_decide_eq_true h)
    have htc : try_complete_join g now = (g, []) := by
      unfold try_complete_join
      rw [if_neg hnb]
    refine ⟨iff_of_false ?_ hr, fun hcontra => absurd hcontra hr⟩
    rw [htc]
    simp [hp]

theorem join_barrier_close_witness :
    (try_complete_join g_preparing 20).1.state ≠ group_state.PreparingRebalance ∧
    (try_complete_join g_preparing 20).1.generation = g_preparing.generation + 1 ∧
    member_ids (try_complete_join g_preparing 20).1 = ["b"] := by
  have h := join_barrier_close g_preparing 20 (by decide)
  have hcond : all_joined g_preparing = true ∨ g_preparing.rebalance_deadline ≤ 20 :=
    Or.inr (by decide)
  refine ⟨h.1.mpr hcond, (h.2 hcond).1, ?_⟩
  rw [(h.2 hcond).2.1]
  decide

/-- Folding `earlier` never leaves the candidate set. -/
theorem foldl_earlier_mem (l : List member_session) (a : member_session) :
    l.foldl earlier a = a ∨ l.foldl earlier a ∈ l := by
  induction l generalizing a with
  | nil => exact Or.inl rfl
  | cons b rest ih =>
      simp only [List.foldl_cons]
      rcases ih (earlier a b) with h | h
      · by_cases hlt : b.join_order < a.join_order
        · have heb : earlier a b = b := by
            unfold earlier
            rw [if_pos hlt]
          right
          rw [heb] at h ⊢
          rw [h]
          exact List.mem_cons_self b rest
        · have heb : earlier a b = a := by
            unfold earlier
            rw [if_neg hlt]
          left
          rw [heb] at h ⊢
          exact h
      · exact Or.inr (List.mem_cons_of_mem b h)

/-- Folding `earlier` yields a minimal join order. -/
theorem foldl_earlier_le (l : List member_session) (a : member_session) :
    (l.foldl earlier a).join_order ≤ a.join_order ∧
    ∀ m ∈ l, (l.foldl earlier a).join_order ≤ m.join_order := by
  induction l generalizing a with
  | nil =>
      refine ⟨Nat.le_refl _, ?_⟩
      intro m hm
      simp at hm
  | cons b rest ih =>
      simp only [List.foldl_cons]
      have hab : (earlier a b).join_order ≤ a.join_order ∧
          (earlier a b).join_order ≤ b.join_order := by
        unfold earlier
        by_cases hlt : b.join_order < a.join_order
        · rw [if_pos hlt]
          exact ⟨Nat.le_of_lt hlt, Nat.le_refl _⟩
        · rw [if_neg hlt]
          exact ⟨Nat.le_refl _, Nat.le_of_not_lt hlt⟩
      rcases ih (earlier a b) with ⟨h1, h2⟩
      refine ⟨Nat.le_trans h1 hab.1, ?_⟩
      intro m hm
      rcases List.mem_cons.1 hm with h | h
      · rw [h]
        exact Nat.le_trans h1 hab.2
      · exact h2 m h

/-- The earliest joiner found is present and has minimal join order. -/
theorem earliest_joiner_spec (ms : List member_session) (lm : member_session)
    (h : earliest_joiner ms = some lm) :
    lm ∈ ms ∧ ∀ m ∈ ms, lm.join_order ≤ m.join_order := by
  cases ms with
  | nil => simp [earliest_joiner] at h
  | cons a rest =>
      have hlm : rest.foldl earlier a = lm := by
        simpa [earliest_joiner] using h
      constructor
      · rcases foldl_earlier_mem rest a with h2 | h2
        · rw [hlm] at h2
          rw [h2]
          exact List.mem_cons_self a rest
        · rw [hlm] at h2
          exact List.mem_cons_of_mem a h2
      · intro m hm
        rcases List.mem_cons.1 hm with h3 | h3
        · rw [h3, ← hlm]
          exact (foldl_earlier_le rest a).1
        · rw [← hlm]
          exact (foldl_earlier_le rest a).2 m h3

/-- `leader_ok` survives any member-list map that preserves member ids and
join orders. -/
theorem leader_ok_map (lid : Option String) (ms : List member_session)
    (f : member_session → member_session)
    (hid : ∀ m, (f m).member_id = m.member_id)
    (hord : ∀ m, (f m).join_order = m.join_order)
    (h : ∃ lm, lm ∈ ms ∧ lid = some lm.member_id ∧
         ∀ m ∈ ms, lm.join_order ≤ m.join_order) :
    ∃ lm, lm ∈ ms.map f ∧ lid = some lm.member_id ∧
      ∀ m ∈ ms.map f, lm.join_order ≤ m.join_order := by
  rcases h with ⟨lm, hmem, hlid, hmin⟩
  refine ⟨f lm, List.mem_map.2 ⟨lm, hmem, rfl⟩, by rw [hid]; exact hlid, ?_⟩
  intro m hm
  rcases List.mem_map.1 hm with ⟨m0, hm0, rfl⟩
  rw [hord, hord]
  exact hmin m0 hm0

/-- Assignment presence survives any member-list map that preserves the
assignment field. -/
theorem assignments_isSome_map (ms : List member_session)
    (f : member_session → member_session)
    (hasg : ∀ m, (f m).assignment = m.assignment)
    (h : ∀ m ∈ ms, m.assignment.isSome = true) :
    ∀ m ∈ ms.map f, m.assignment.isSome = true := by
  intro m hm
  rcases List.mem_map.1 hm with ⟨m0, hm0, rfl⟩
  rw [hasg]
  exact h m0 hm0

/-- The invariant is trivial outside CompletingRebalance and Stable. -/
theorem group_inv_of_other (g : group)
    (h1 : g.state ≠ group_state.CompletingRebalance)
    (h2 : g.state ≠ group_state.Stable) : group_inv g := by
  constructor
  · intro hcs
    rcases hcs with h | h
    · exact absurd h h1
    · exact absurd h h2
  · intro hs
    exact absurd hs h2

/-- Closing the barrier establishes the invariant: the new leader is the
earliest joiner still present. -/
theorem group_inv_close (g : group) : group_inv (close_barrier g).1 := by
  cases he : earliest_joiner (g.members.filter (fun m => m.joined)) with
  | none =>
      simp only [close_barrier, he]
      exact group_inv_of_other _ (by simp) (by simp)
  | some lead =>
      simp only [close_barrier, he]
      constructor
      · intro _
        have hspec := earliest_joiner_spec _ lead he
        exact leader_ok_map (some lead.member_id) _
          (fun m => { m with joined := false, assignment := none,
                             pending_sync := false })
          (fun m => rfl) (fun m => rfl)
          ⟨lead, hspec.1, rfl, hspec.2⟩
      · intro hs
        exact absurd hs (by simp)

theorem group_inv_try_complete (g : group) (now : Nat) (h : group_inv g) :
    group_inv (try_complete_join g now).1 := by
  unfold try_complete_join
  by_cases hc : g.state = group_state.PreparingRebalance ∧ barrier_ready g now = true
  · rw [if_pos hc]
    exact group_inv_close g
  · rw [if_neg hc]
    exact h

theorem group_inv_try_complete_of_preparing (g : group) (now : Nat)
    (h : g.state = group_state.PreparingRebalance) :
    group_inv (try_complete_join g now).1 :=
  group_inv_try_complete g now
    (group_inv_of_other g (by rw [h]; decide) (by rw [h]; decide))

theorem admit_join_state (g : group) (mid : String) (now : Nat) :
    (admit_join g mid now).state = g.state := by
  unfold admit_join
  cases hf : find_member g.members mid with
  | none => rfl
  | some m =>
      by_cases hj : m.joined = true
      · simp [hj]
      · simp [hj]

theorem group_inv_join (g : group) (mid : String) (now : Nat) (h : group_inv g) :
    group_inv (handle_join g mid now).1 := by
  cases hst : g.state with
  | Dead =>
      simp only [handle_join, hst]
      exact h
  | PreparingRebalance =>
      simp only [handle_join, hst]
      exact group_inv_try_complete_of_preparing _ now
        (by rw [admit_join_state]; exact hst)
  | Empty =>
      simp only [handle_join, hst]
      exact group_inv_try_complete_of_preparing _ now
        (by rw [admit_join_state]; rfl)
  | CompletingRebalance =>
      simp only [handle_join, hst]
      exact group_inv_try_complete_of_preparing _ now
        (by rw [admit_join_state]; rfl)
  | Stable =>
      simp only [handle_join, hst]
      exact group_inv_try_complete_of_preparing _ now
        (by rw [admit_join_state]; rfl)

theorem group_inv_prepare (g : group) (now : Nat) :
    group_inv (prepare_rebalance g now) :=
  group_inv_of_other _ (by simp [prepare_rebalance]) (by simp [prepare_rebalance])

theorem group_inv_sync (g : group) (mid : String) (gen : Nat)
    (assignments : List (String × List Nat)) (now : Nat) (h : group_inv g) :
    group_inv (handle_sync g mid gen assignments now).1 := by
  unfold handle_sync
  by_cases h1 : gen ≠ g.generation
  · rw [if_pos h1]
    exact h
  · rw [if_neg h1]
    by_cases h2 : g.state ≠ group_state.CompletingRebalance
    · rw [if_pos h2]
      exact h
    · rw [if_neg h2]
      have hcs : g.state = group_state.CompletingRebalance := not_not.1 h2
      by_cases h3 : (member_ids g).contains mid = false
      · rw [if_pos h3]
        exact h
      · rw [if_neg h3]
        by_cases h4 : g.leader_id = some mid
        · rw [if_pos h4]
          by_cases h5 : keys_match g assignments = true
          · rw [if_pos h5]
            constructor
            · intro _
              exact leader_ok_map g.leader_id g.members _
                (fun m => rfl) (fun m => rfl) (h.1 (Or.inl hcs))
            · intro _
              intro m hm
              rcases List.mem_map.1 hm with ⟨m0, hm0, rfl⟩
              show (assignment_for m0.member_id assignments).isSome = true
              have h5b := h5
              unfold keys_match at h5b
              rw [Bool.and_eq_true] at h5b
              exact List.all_eq_true.1 h5b.1 m0 hm0
          · rw [if_neg h5]
            exact group_inv_prepare g now
        · rw [if_neg h4]
          constructor
          · intro _
            refine leader_ok_map g.leader_id g.members _ ?_ ?_ (h.1 (Or.inl hcs))
            · intro m
              by_cases hb : (m.member_id == mid) = true
              · simp [hb]
              · simp [hb]
            · intro m
              by_cases hb : (m.member_id == mid) = true
              · simp [hb]
              · simp [hb]
          · intro hs
            rw [hcs] at hs
            exact absurd hs (by simp)

theorem group_inv_heartbeat (g : group) (mid : String) (gen : Nat) (now : Nat)
    (h : group_inv g) :
    group_inv (handle_heartbeat g mid gen now).1 := by
  unfold handle_heartbeat
  by_cases h1 : g.state ≠ group_state.Stable
  · rw [if_pos h1]
    exact h
  · rw [if_neg h1]
    have hs : g.state = group_state.Stable := not_not.1 h1
    by_cases h2 : gen ≠ g.generation
    · rw [if_pos h2]
      exact h
    · rw [if_neg h2]
      cases hf : find_member g.members mid with
      | none => exact h
      | some m =>
          constructor
          · intro _
            refine leader_ok_map g.leader_id g.members _ ?_ ?_ (h.1 (Or.inr hs))
            · intro m0
              by_cases hb : (m0.member_id == mid) = true
              · simp [hb]
              · simp [hb]
            · intro m0
              by_cases hb : (m0.member_id == mid) = true
              · simp [hb]
              · simp [hb]
          · intro _
            refine assignments_isSome_map g.members _ ?_ (h.2 hs)
            intro m0
            by_cases hb : (m0.member_id == mid) = true
            · simp [hb]
            · simp [hb]

theorem rebalance_if_needed_state (g : group) (now : Nat) :
    (rebalance_if_needed g now).state = group_state.PreparingRebalance := by
  unfold rebalance_if_needed
  by_cases h : g.state = group_state.PreparingRebalance
  · rw [if_pos h]
    exact h
  · rw [if_neg h]
    rfl

theorem group_inv_leave (g : group) (mid : String) (now : Nat) (h : group_inv g) :
    group_inv (handle_leave g mid now).1 := by
  cases hst : g.state with
  | Dead =>
      simp only [handle_leave, hst]
      exact h
  | Empty =>
      simp only [handle_leave, hst]
      exact h
  | PreparingRebalance =>
      simp only [handle_leave, hst]
      cases hf : find_member g.members mid with
      | none => exact h
      | some m =>
          exact group_inv_try_complete_of_preparing _ now
            (rebalance_if_needed_state _ now)
  | CompletingRebalance =>
      simp only [handle_leave, hst]
      cases hf : find_member g.members mid with
      | none => exact h
      | some m =>
          exact group_inv_try_complete_of_preparing _ now
            (rebalance_if_needed_state _ now)
  | Stable =>
      simp only [handle_leave, hst]
      cases hf : find_member g.members mid with
      | none => exact h
      | some m =>
          exact group_inv_try_complete_of_preparing _ now
            (rebalance_if_needed_state _ now)

theorem group_inv_step (g : group) (e : event) (h : group_inv g) :
    group_inv (step g e) := by
  cases e with
  | join mid now => exact group_inv_join g mid now h
  | timer now => exact group_inv_try_complete g now h
  | sync mid gen assignments now => exact group_inv_sync g mid gen assignments now h
  | heartbeat mid gen now => exact group_inv_heartbeat g mid gen now h
  | leave mid now => exact group_inv_leave g mid now h

theorem group_inv_run (g : group) (es : List event) (h : group_inv g) :
    group_inv (run g es) := by
  induction es generalizing g with
  | nil => exact h
  | cons e rest ih => exact ih (step g e) (group_inv_step g e h)

/-- The spec's Group invariants hold in every observable state of every
group lifetime. -/
theorem group_inv_reachable (g : group) (h : reachable g) : group_inv g := by
  rcases h with ⟨gid, tmo, es, rfl⟩
  exact group_inv_run _ es
    (group_inv_of_other _ (by simp [init_group]) (by simp [init_group]))

/-- Closing the barrier always bumps the generation by one. -/
theorem close_barrier_gen (g : group) :
    (close_barrier g).1.generation = g.generation + 1 := by
  cases he : earliest_joiner (g.members.filter (fun m => m.joined)) with
  | none => simp only [close_barrier, he]
  | some lead => simp only [close_barrier, he]

/-- The coordinator either leaves the group untouched or closes the
barrier. -/
theorem try_complete_cases (g : group) (now : Nat) :
    (try_complete_join g now).1 = g ∨
    (try_complete_join g now).1 = (close_barrier g).1 := by
  unfold try_complete_join
  by_cases hc : g.state = group_state.PreparingRebalance ∧ barrier_ready g now = true
  · rw [if_pos hc]
    exact Or.inr rfl
  · rw [if_neg hc]
    exact Or.inl rfl

theorem try_gen_ge (g : group) (now : Nat) :
    g.generation ≤ (try_complete_join g now).1.generation := by
  rcases try_complete_cases g now with h | h
  · rw [h]
  · rw [h, close_barrier_gen]
    exact Nat.le_succ _

theorem admit_join_gen_leader (g : group) (mid : String) (now : Nat) :
    (admit_join g mid now).generation = g.generation ∧
    (admit_join g mid now).leader_id = g.leader_id := by
  unfold admit_join
  cases hf : find_member g.members mid with
  | none => exact ⟨rfl, rfl⟩
  | some m =>
      by_cases hj : m.joined = true
      · simp [hj]
      · simp [hj]

theorem handle_sync_gen_leader (g : group) (mid : String) (gen : Nat)
    (assignments : List (String × List Nat)) (now : Nat) :
    (handle_sync g mid gen assignments now).1.generation = g.generation ∧
    (handle_sync g mid gen assignments now).1.leader_id = g.leader_id := by
  unfold handle_sync
  by_cases h1 : gen ≠ g.generation
  · rw [if_pos h1]
    exact ⟨rfl, rfl⟩
  · rw [if_neg h1]
    by_cases h2 : g.state ≠ group_state.CompletingRebalance
    · rw [if_pos h2]
      exact ⟨rfl, rfl⟩
    · rw [if_neg h2]
      by_cases h3 : (member_ids g).contains mid = false
      · rw [if_pos h3]
        exact ⟨rfl, rfl⟩
      · rw [if_neg h3]
        by_cases h4 : g.leader_id = some mid
        · rw [if_pos h4]
          by_cases h5 : keys_match g assignments = true
          · rw [if_pos h5]
            exact ⟨rfl, rfl⟩
          · rw [if_neg h5]
            exact ⟨rfl, rfl⟩
        · rw [if_neg h4]
          exact ⟨rfl, rfl⟩

theorem handle_heartbeat_gen_leader (g : group) (mid : String) (gen : Nat)
    (now : Nat) :
    (handle_heartbeat g mid gen now).1.generation = g.generation ∧
    (handle_heartbeat g mid gen now).1.leader_id = g.leader_id := by
  unfold handle_heartbeat
  by_cases h1 : g.state ≠ group_state.Stable
  · rw [if_pos h1]
    exact ⟨rfl, rfl⟩
  · rw [if_neg h1]
    by_cases h2 : gen ≠ g.generation
    · rw [if_pos h2]
      exact ⟨rfl, rfl⟩
    · rw [if_neg h2]
      cases hf : find_member g.members mid with
      | none => exact ⟨rfl, rfl⟩
      | some m => exact ⟨rfl, rfl⟩

theorem rebalance_if_needed_gen_leader (g : group) (now : Nat) :
    (rebalance_if_needed g now).generation = g.generation ∧
    (rebalance_if_needed g now).leader_id = g.leader_id := by
  unfold rebalance_if_needed
  by_cases h : g.state = group_state.PreparingRebalance
  · rw [if_pos h]
    exact ⟨rfl, rfl⟩
  · rw [if_neg h]
    exact ⟨rfl, rfl⟩

/-- Every single transition leaves the generation counter unchanged or
raises it; it never lowers it. -/
theorem step_gen_mono (g : group) (e : event) :
    g.generation ≤ (step g e).generation := by
  cases e with
  | join mid now =>
      show g.generation ≤ (handle_join g mid now).1.generation
      cases hst : g.state with
      | Dead =>
          simp only [handle_join, hst]
          exact Nat.le_refl _
      | PreparingRebalance =>
          simp only [handle_join, hst]
          have h := try_gen_ge (admit_join g mid now) now
          rw [(admit_join_gen_leader g mid now).1] at h
          exact h
      | Empty =>
          simp only [handle_join, hst]
          have h := try_gen_ge (admit_join (prepare_rebalance g now) mid now) now
          rw [(admit_join_gen_leader (prepare_rebalance g now) mid now).1] at h
          exact h
      | CompletingRebalance =>
          simp only [handle_join, hst]
          have h := try_gen_ge (admit_join (prepare_rebalance g now) mid now) now
          rw [(admit_join_gen_leader (prepare_rebalance g now) mid now).1] at h
          exact h
      | Stable =>
          simp only [handle_join, hst]
          have h := try_gen_ge (admit_join (prepare_rebalance g now) mid now) now
          rw [(admit_join_gen_leader (prepare_rebalance g now) mid now).1] at h
          exact h
  | timer now =>
      exact try_gen_ge g now
  | sync mid gen assignments now =>
      exact Nat.le_of_eq (handle_sync_gen_leader g mid gen assignments now).1.symm
  | heartbeat mid gen now =>
      exact Nat.le_of_eq (handle_heartbeat_gen_leader g mid gen now).1.symm
  | leave mid now =>
      show g.generation ≤ (handle_leave g mid now).1.generation
      cases hst : g.state with
      | Dead =>
          simp only [handle_leave, hst]
          exact Nat.le_refl _
      | Empty =>
          simp only [handle_leave, hst]
          exact Nat.le_refl _
      | PreparingRebalance =>
          simp only [handle_leave, hst]
          cases hf : find_member g.members mid with
          | none => exact Nat.le_refl _
          | some m =>
              have h := try_gen_ge (rebalance_if_needed
                { g with state := group_state.PreparingRebalance,
                         members := g.members.filter (fun m => m.member_id != mid) } now) now
              rw [(rebalance_if_needed_gen_leader _ now).1] at h
              exact h
      | CompletingRebalance =>
          simp only [handle_leave, hst]
          cases hf : find_member g.members mid with
          | none => exact Nat.le_refl _
          | some m =>
              have h := try_gen_ge (rebalance_if_needed
                { g with state := group_state.CompletingRebalance,
                         members := g.members.filter (fun m => m.member_id != mid) } now) now
              rw [(rebalance_if_needed_gen_leader _ now).1] at h
              exact h
      | Stable =>
          simp only [handle_leave, hst]
          cases hf : find_member g.members mid with
          | none => exact Nat.le_refl _
          | some m =>
              have h := try_gen_ge (rebalance_if_needed
                { g with state := group_state.Stable,
                         members := g.members.filter (fun m => m.member_id != mid) } now) now
              rw [(rebalance_if_needed_gen_leader _ now).1] at h
              exact h

/-- If a barrier check left the generation unchanged it also left the
leader unchanged (a closed barrier always bumps the generation). -/
theorem try_leader_of_gen_eq (g0 : group) (now : Nat) (gen0 : Nat)
    (lid0 : Option String)
    (hg : g0.generation = gen0) (hl : g0.leader_id = lid0)
    (h : (try_complete_join g0 now).1.generation = gen0) :
    (try_complete_join g0 now).1.leader_id = lid0 := by
  rcases try_complete_cases g0 now with h2 | h2
  · rw [h2, hl]
  · rw [h2, close_barrier_gen, hg] at h
    exact absurd h (Nat.succ_ne_self gen0)

/-- A transition that leaves the generation unchanged leaves the leader
unchanged: within one generation number the leader is fixed. -/
theorem step_leader_of_gen_eq (g : group) (e : event)
    (h : (step g e).generation = g.generation) :
    (step g e).leader_id = g.leader_id := by
  cases e with
  | join mid now =>
      have h2 : (handle_join g mid now).1.generation = g.generation := h
      show (handle_join g mid now).1.leader_id = g.leader_id
      cases hst : g.state with
      | Dead =>
          simp only [handle_join, hst]
      | PreparingRebalance =>
          simp only [handle_join, hst] at h2 ⊢
          exact try_leader_of_gen_eq _ now _ _
            (admit_join_gen_leader g mid now).1
            (admit_join_gen_leader g mid now).2 h2
      | Empty =>
          simp only [handle_join, hst] at h2 ⊢
          exact try_leader_of_gen_eq _ now _ _
            (admit_join_gen_leader (prepare_rebalance g now) mid now).1
            (admit_join_gen_leader (prepare_rebalance g now) mid now).2 h2
      | CompletingRebalance =>
          simp only [handle_join, hst] at h2 ⊢
          exact try_leader_of_gen_eq _ now _ _
            (admit_join_gen_leader (prepare_rebalance g now) mid now).1
            (admit_join_gen_leader (prepare_rebalance g now) mid now).2 h2
      | Stable =>
          simp only [handle_join, hst] at h2 ⊢
          exact try_leader_of_gen_eq _ now _ _
            (admit_join_gen_leader (prepare_rebalance g now) mid now).1
            (admit_join_gen_leader (prepare_rebalance g now) mid now).2 h2
  | timer now =>
      exact try_leader_of_gen_eq g now _ _ rfl rfl h
  | sync mid gen assignments now =>
      exact (handle_sync_gen_leader g mid gen assignments now).2
  | heartbeat mid gen now =>
      exact (handle_heartbeat_gen_leader g mid gen now).2
  | leave mid now =>
      have h2 : (handle_leave g mid now).1.generation = g.generation := h
      show (handle_leave g mid now).1.leader_id = g.leader_id
      cases hst : g.state with
      | Dead =>
          simp only [handle_leave, hst]
      | Empty =>
          simp only [handle_leave, hst]
      | PreparingRebalance =>
          simp only [handle_leave, hst] at h2 ⊢
          cases hf : find_member g.members mid with
          | none => rfl
          | some m =>
              simp only [hf] at h2
              exact try_leader_of_gen_eq _ now _ _
                (rebalance_if_needed_gen_leader
                  { g with state := group_state.PreparingRebalance,
                           members := g.members.filter (fun m => m.member_id != mid) } now).1
                (rebalance_if_needed_gen_leader
                  { g with state := group_state.PreparingRebalance,
                           members := g.members.filter (fun m => m.member_id != mid) } now).2 h2
      | CompletingRebalance =>
          simp only [handle_leave, hst] at h2 ⊢
          cases hf : find_member g.members mid with
          | none => rfl
          | some m =>
              simp only [hf] at h2
              exact try_leader_of_gen_eq _ now _ _
                (rebalance_if_needed_gen_leader
                  { g with state := group_state.CompletingRebalance,
                           members := g.members.filter (fun m => m.member_id != mid) } now).1
                (rebalance_if_needed_gen_leader
                  { g with state := group_state.CompletingRebalance,
                           members := g.members.filter (fun m => m.member_id != mid) } now).2 h2
      | Stable =>
          simp only [handle_leave, hst] at h2 ⊢
          cases hf : find_member g.members mid with
          | none => rfl
          | some m =>
              simp only [hf] at h2
              exact try_leader_of_gen_eq _ now _ _
                (rebalance_if_needed_gen_leader
                  { g with state := group_state.Stable,
                           members := g.members.filter (fun m => m.member_id != mid) } now).1
                (rebalance_if_needed_gen_leader
                  { g with state := group_state.Stable,
                           members := g.members.filter (fun m => m.member_id != mid) } now).2 h2

/-- Claim C2: across every pair of consecutive observable states the
`generation` counter never decreases, and every close of the join barrier
that reaches CompletingRebalance (a completed rebalance) increments it by
exactly one. -/
theorem generation_monotone_and_incremented :
    (∀ g e, g.generation ≤ (step g e).generation) ∧
    (∀ g now, g.state = group_state.PreparingRebalance →
       (try_complete_join g now).1.state = group_state.CompletingRebalance →
       (try_complete_join g now).1.generation = g.generation + 1) := by
  constructor
  · exact step_gen_mono
  · intro g now hp hcs
    rcases try_complete_cases g now with h | h
    · rw [h] at hcs
      rw [hp] at hcs
      exact absurd hcs (by decide)
    · rw [h, close_barrier_gen]

theorem generation_monotone_and_incremented_witness :
    g_preparing.generation ≤ (step g_preparing (event.timer 20)).generation ∧
    (try_complete_join g_preparing 20).1.generation = g_preparing.generation + 1 :=
  ⟨generation_monotone_and_incremented.1 g_preparing (event.timer 20),
   generation_monotone_and_incremented.2 g_preparing 20 (by decide) (by decide)⟩

/-- Claim C3: in every observable group state that has reached
CompletingRebalance or later (Stable), exactly one leader exists
(`leader_id` carries a single id), the leader is present in the member set,
and the leader is an earliest joiner of the generation (its barrier join
order is minimal among all present members); moreover any transition that
keeps the generation number unchanged keeps `leader_id` unchanged, so a
generation has at most this one leader over its whole lifetime. -/
theorem leader_unique_present_earliest :
    (∀ g, reachable g →
       (g.state = group_state.CompletingRebalance ∨ g.state = group_state.Stable) →
       ∃ lm, lm ∈ g.members ∧ g.leader_id = some lm.member_id ∧
         ∀ m ∈ g.members, lm.join_order ≤ m.join_order) ∧
    (∀ g e, (step g e).generation = g.generation →
       (step g e).leader_id = g.leader_id) := by
  constructor
  · intro g hr hcs
    exact (group_inv_reachable g hr).1 hcs
  · exact step_leader_of_gen_eq

theorem leader_unique_present_earliest_witness :
    g_completing.leader_id = some "a" := by
  have h := leader_unique_present_earliest.1 g_completing
    ⟨"g", 10, [event.join "a" 0], rfl⟩ (Or.inl (by decide))
  rcases h with ⟨lm, hmem, hlid, _⟩
  have hm : g_completing.members
      = [{ member_id := "a", joined := false, join_order := 0,
           assignment := none, last_heartbeat_at := 0, pending_sync := false }] := by
    decide
  rw [hm] at hmem
  have : lm = { member_id := "a", joined := false, join_order := 0,
                assignment := none, last_heartbeat_at := 0, pending_sync := false } := by
    simpa using hmem
  rw [this] at hlid
  exact hlid

/-- Claim C4: in every observable Stable state every member of the group
holds an assignment for the current generation, and no transition from an
invariant-satisfying state can enter Stable with a member lacking one. -/
theorem stable_members_assigned :
    (∀ g, reachable g → g.state = group_state.Stable →
       ∀ m ∈ g.members, m.assignment.isSome = true) ∧
    (∀ g e, group_inv g → (step g e).state = group_state.Stable →
       ∀ m ∈ (step g e).members, m.assignment.isSome = true) := by
  constructor
  · intro g hr hs
    exact (group_inv_reachable g hr).2 hs
  · intro g e h hs
    exact (group_inv_step g e h).2 hs

theorem stable_members_assigned_witness :
    ({ member_id := "a", joined := false, join_order := 0,
       assignment := some [1, 2], last_heartbeat_at := 3,
       pending_sync := false } : member_session).assignment.isSome = true :=
  stable_members_assigned.1 g_stable
    ⟨"g", 10, [event.join "a" 0, event.sync "a" 1 [("a", [1, 2])] 3], rfl⟩
    (by decide) _ (by decide)

end RedpandaGroups

namespace RpkTransform

/-- Claim C10: `WasmLang.Set(s)` succeeds exactly when the lowercase form
of `s` is an element of `AllWasmLangs`; on success the stored value is the
canonical lowercase name (an element of `AllWasmLangs`, equal to the
lowercase form of the input); on failure an error is returned and the
receiver's value is unchanged. -/
theorem wasm_lang_set_spec (l str : String) :
    ((wasm_lang_set l str).2 = none ↔ go_to_lower str ∈ AllWasmLangs) ∧
    (go_to_lower str ∈ AllWasmLangs →
       (wasm_lang_set l str).1 = go_to_lower str ∧
       (wasm_lang_set l str).1 ∈ AllWasmLangs) ∧
    (go_to_lower str ∉ AllWasmLangs →
       (wasm_lang_set l str).2 ≠ none ∧ (wasm_lang_set l str).1 = l) := by
  unfold wasm_lang_set AllWasmLangs
  by_cases h : go_to_lower str = "tinygo"
  · simp [List.find?, h]
  · have hb : (go_to_lower str == "tinygo") = false := by simp [h]
    simp [List.find?, hb, h]

theorem wasm_lang_set_spec_witness :
    (wasm_lang_set "prev" "TinyGo").1 = "tinygo" ∧
    (wasm_lang_set "prev" "TinyGo").2 = none ∧
    (wasm_lang_set "prev" "russt").1 = "prev" ∧
    (wasm_lang_set "prev" "russt").2 ≠ none :=
  by
    have hin : go_to_lower "TinyGo" ∈ AllWasmLangs := by decide
    have hout : go_to_lower "russt" ∉ AllWasmLangs := by decide
    have h1 := (wasm_lang_set_spec "prev" "TinyGo").2.1 hin
    have h2 := (wasm_lang_set_spec "prev" "TinyGo").1.2 hin
    have h3 := (wasm_lang_set_spec "prev" "russt").2.2 hout
    refine ⟨?_, h2, h3.2, h3.1⟩
    have : go_to_lower "TinyGo" = "tinygo" := by decide
    rw [h1.1, this]

end RpkTransform
